import Mathlib

/-!
# Verification of EVODelavega/asciify

Shallow embedding of the core of the asciify repository: the glyph mapper
(package `convert`), the colour codec (package `colour`), the resampler's
target-size resolution (package `scale`), and the single-file simple variant
(`main.go`).  Machine integers are modelled with `Nat`/`Int` (Go `uint32`
channel values are 0..65535 by the image contract; Go `int` is `Int`, with
Go's truncated `%` modelled by `Int.tmod`).  The two `float64` computations
the claims depend on are modelled by exact rationals:

* `convert.CharStep = float64((65535.0*3.0)/29.0)`.  The IEEE-754 double
  nearest to 196605/29 is exactly 7454120123410361 / 2^40, and for every
  channel sum `s ≤ 196605` the truncation `int(float64(s) / CharStep)`
  agrees with the exact rational floor `s * 2^40 / 7454120123410361`
  (checked exhaustively over all 196606 reachable sums against IEEE-754
  double semantics), so the embedding uses that exact natural division.
* the factor arithmetic of `scale.FileToWindow` / `scale.getScaledXY` is
  modelled over `ℚ`; for the concrete geometry the claims mention
  (2816×1880 source, 400×110 bounds) the `ℚ` results coincide with the
  IEEE-754 double results.

The concurrent row fan-out writes each cell of the output matrix exactly
once (cell ownership is partitioned by row, and within a row each source
column writes one output column), so the pipeline is modelled by the
deterministic fold `fillRow` performing the collector's writes in order.
-/

/-- The four channels returned by Go's `color.Color.RGBA()`; each is a
`uint32` holding an alpha-premultiplied value in `0..65535`. -/
structure RGBA where
  r : Nat
  g : Nat
  b : Nat
  a : Nat
deriving Repr, DecidableEq

/-- An `image.Image` as the converter uses it: `Bounds().Max` gives the
width/height and `At(x, y).RGBA()` gives the pixel channels. -/
structure GoImage where
  width : Nat
  height : Nat
  pixel : Nat → Nat → RGBA

namespace convert

/-- Ramp `ASCIIChars` of package `convert`: 29 runes, densest first. -/
def ASCIIChars : List Char := "Ñ@#W$9876543210?!abc;:+=-,._ ".data

/-- Numerator of the exact value of the `float64` constant
`CharStep = (65535.0 * 3.0) / 29.0` (see the file header). -/
def charStepNum : Nat := 7454120123410361

/-- Denominator `2^40` of the exact value of the `float64` `CharStep`. -/
def charStepDen : Nat := 1099511627776

/-- Index `int(float64(r+g+b) / CharStep)` for a channel sum `s`: truncated
float64 division, which (for `s ≤ 196605`) equals this exact floor. -/
def rawIdx (s : Nat) : Nat := s * charStepDen / charStepNum

/-- The index `i` computed by `convertRow` / `convertRowColour` before the
final `i % cLen` (the two functions compute it identically): `cLen - 1`
for a fully transparent pixel, otherwise `int(float64(r+g+b)/CharStep)`,
negated to `cLen - i` when `reverse` is false.  Go `int`, hence `Int`. -/
def glyphIdx (p : RGBA) (reverse : Bool) : Int :=
  if p.a = 0 then (29 : Int) - 1
  else
    let i : Int := (rawIdx (p.r + p.g + p.b) : Nat)
    if !reverse then (29 : Int) - i else i

/-- The ramp index actually looked up: `i % cLen` with Go's truncated `%`
(`Int.tmod`); nonnegative for every in-contract pixel (claim C10). -/
def assignedIdx (p : RGBA) (reverse : Bool) : Nat :=
  ((glyphIdx p reverse).tmod 29).toNat

/-- Glyph `ASCIIChars[i%cLen]` emitted for one pixel.  Go would
panic on an out-of-range index; the model totalises with a default that
is never reached for in-contract pixels (claim C10). -/
def pixelChar (p : RGBA) (reverse : Bool) : Char :=
  (ASCIIChars[assignedIdx p reverse]?).getD 'Ñ'

/-- Output column a value computed for source column `x` is written to by
the collector goroutines: `len(matrix[y]) - x - 1` when `invert` is set,
`x` otherwise. -/
def mirrorIdx (w : Nat) (invert : Bool) (x : Nat) : Nat :=
  if invert then w - x - 1 else x

/-- One row of the shared output matrix after the collector has drained
the channel: the row starts as `make([]T, max.X)` (all zero values) and
receives, for each source column `x`, the value `f x` at output column
`mirrorIdx w invert x`.  Each cell is written exactly once, so the fold
order does not matter. -/
def fillRow {α : Type} (w : Nat) (invert : Bool) (f : Nat → α) (d : α) : List α :=
  (List.range w).foldl (fun row x => row.set (mirrorIdx w invert x) (f x)) (List.replicate w d)

/-- Row `y` of the matrix built by `ImgToASCII`'s collector. -/
def imgRowChars (im : GoImage) (y : Nat) (negative invert : Bool) : List Char :=
  fillRow im.width invert (fun x => pixelChar (im.pixel x y) negative) (Char.ofNat 0)

/-- The `chunks` slice of `convert.ImgToASCII`: one string per row, kept
verbatim (the commented-out `TrimRight` is not active). -/
def imgToASCIIChunks (im : GoImage) (negative invert : Bool) : List String :=
  (List.range im.height).map (fun y => String.mk (imgRowChars im y negative invert))

/-- Function `convert.ImgToASCII`: the rows joined with `"\n"`. -/
def imgToASCII (im : GoImage) (negative invert : Bool) : String :=
  String.intercalate "\n" (imgToASCIIChunks im negative invert)

end convert

namespace colour

/-- Constant `colour.ResetColour`: the terminal reset escape `"\033[0m"`. -/
def ResetColour : String := "\x1b[0m"

/-- Record `colour.Colour256`: three 8-bit channels (`uint8` each, no alpha). -/
structure Colour256 where
  r : Fin 256
  g : Fin 256
  b : Fin 256
deriving Repr, DecidableEq

/-- Function `colour.FromColor`: `nil` (here `none`) for a fully transparent pixel,
otherwise each 16-bit channel becomes `uint8(ch / 256)` (the `uint8`
conversion truncates to the low 8 bits, hence the `% 256`). -/
def FromColor (p : RGBA) : Option Colour256 :=
  if p.a = 0 then none
  else some ⟨⟨p.r / 256 % 256, Nat.mod_lt _ (by decide)⟩,
             ⟨p.g / 256 % 256, Nat.mod_lt _ (by decide)⟩,
             ⟨p.b / 256 % 256, Nat.mod_lt _ (by decide)⟩⟩

/-- Lower-case hex digit for a value below 16, as `%x` prints it. -/
def hexDigitChar (n : Nat) : Char :=
  if n < 10 then Char.ofNat (48 + n) else Char.ofNat (97 + (n - 10))

/-- Formatting `%02x` for a `uint8` value: exactly two lower-case hex digits. -/
def byteHex (n : Nat) : String := String.mk [hexDigitChar (n / 16), hexDigitChar (n % 16)]

/-- The six hex digits of `Colour256.Hex()` (its output after `"0x"`). -/
def hexDigits (c : Colour256) : String :=
  byteHex c.r.val ++ byteHex c.g.val ++ byteHex c.b.val

/-- Method `Colour256.Hex()`: `fmt.Sprintf("0x%02x%02x%02x", c.R, c.G, c.B)`. -/
def Hex (c : Colour256) : String := "0x" ++ hexDigits c

/-- Recogniser for the digits Go's `strconv.ParseUint` accepts in base 16. -/
def isHexDigitChar (c : Char) : Bool :=
  (('0' ≤ c) && (c ≤ '9')) || (('a' ≤ c) && (c ≤ 'f')) || (('A' ≤ c) && (c ≤ 'F'))

/-- Value of one base-16 digit as `ParseUint` reads it. -/
def hexVal (c : Char) : Nat :=
  if ('0' ≤ c) && (c ≤ '9') then c.toNat - 48
  else if ('a' ≤ c) && (c ≤ 'f') then c.toNat - 97 + 10
  else c.toNat - 65 + 10

/-- Go's `strconv.ParseUint(s, 16, 32)`: with the base given explicitly as
16 no sign, no `"0x"`/`"0X"` prefix and no underscores are accepted — every
character must be a base-16 digit; the empty string is a syntax error; a
value above `2^32 - 1` is a range error.  Errors are modelled as `none`. -/
def parseUintHex32 (s : String) : Option Nat :=
  if s.data = [] then none
  else if s.data.all isHexDigitChar then
    let v := s.data.foldl (fun acc c => acc * 16 + hexVal c) 0
    if v < 4294967296 then some v else none
  else none

/-- Function `colour.FromHex`: `ParseUint(hex, 16, 32)`, then split the value into
`R = uint8(val >> 16)`, `G = uint8((val >> 8) & 0xFF)`, `B = uint8(val & 0xFF)`
(the shifts are divisions by 2^16 / 2^8; `uint8` truncates mod 256). -/
def FromHex (s : String) : Option Colour256 :=
  match parseUintHex32 s with
  | none => none
  | some v => some ⟨⟨v / 65536 % 256, Nat.mod_lt _ (by decide)⟩,
                    ⟨v / 256 % 256, Nat.mod_lt _ (by decide)⟩,
                    ⟨v % 256, Nat.mod_lt _ (by decide)⟩⟩

/-- Method `Colour256.TrueEsc()`: `fmt.Sprintf("\033[48;2;%d;%d;%dm", c.R, c.G, c.B)`. -/
def TrueEsc (c : Colour256) : String :=
  "\x1b[48;2;" ++ toString c.r.val ++ ";" ++ toString c.g.val ++ ";" ++ toString c.b.val ++ "m"

end colour

namespace convert

/-- The string stored per cell by `ImgToASCIIColoured`'s collector:
`fmt.Sprintf("%s%c", te, pc.char)` where `te` is the pixel's true-colour
escape, or `""` for a transparent pixel (`pc.c == nil`). -/
def colouredCell (p : RGBA) (negative : Bool) : String :=
  (match colour.FromColor p with
   | none => ""
   | some c => colour.TrueEsc c) ++ String.singleton (pixelChar p negative)

/-- Row `y` of the matrix built by `ImgToASCIIColoured`'s collector
(same mirrored placement as the plain path; cells start as `""`). -/
def imgRowColoured (im : GoImage) (y : Nat) (negative invert : Bool) : List String :=
  fillRow im.width invert (fun x => colouredCell (im.pixel x y) negative) ""

/-- The `chunks` slice of `ImgToASCIIColoured`: each row's cells joined
with `""`. -/
def colouredChunks (im : GoImage) (negative invert : Bool) : List String :=
  (List.range im.height).map (fun y => String.join (imgRowColoured im y negative invert))

/-- Function `convert.ImgToASCIIColoured`: rows joined with `"\n"`, then one
`colour.ResetColour` appended to the whole block. -/
def imgToASCIIColoured (im : GoImage) (negative invert : Bool) : String :=
  String.intercalate "\n" (colouredChunks im negative invert) ++ colour.ResetColour

/-- The string stored per cell by `ImgToPreview`'s collector:
`fmt.Sprintf(format, cEsc)` with `format = "%s "` when `single` is set and
`"%s   "` otherwise; `cEsc` is `""` for a transparent pixel. -/
def previewCell (p : RGBA) (single : Bool) : String :=
  (match colour.FromColor p with
   | none => ""
   | some c => colour.TrueEsc c) ++ (if single then " " else "   ")

/-- The `chunks` slice of `ImgToPreview`: each row's cells joined with
`colour.ResetColour` (the preview collector writes at `pc.x`, no mirror). -/
def previewChunks (im : GoImage) (single : Bool) : List String :=
  (List.range im.height).map (fun y =>
    String.intercalate colour.ResetColour
      (fillRow im.width false (fun x => previewCell (im.pixel x y) single) ""))

/-- Function `convert.ImgToPreview`: rows joined with `delim = ResetColour + "\n"`. -/
def imgToPreview (im : GoImage) (single : Bool) : String :=
  String.intercalate (colour.ResetColour ++ "\n") (previewChunks im single)

end convert

namespace simple

/-- Ramp `ASCIIChars` of the single-file simple variant (`main.go`): its string
literal holds 30 runes (the first two are U+00C3 and U+2018 — the adjacent
comment likewise counts "30 chars"), ending in `'_'` and `' '`. -/
def ASCIIChars : List Char := "Ã‘@#W$9876543210?!abc;:+=-,._ ".data

/-- Constant `CharStep = 34 * 257` of `main.go`, an integer constant. -/
def CharStep : Nat := 34 * 257

/-- The pre-modulo index of `main.go`'s `convertRow`: `len(ASCIIChars)-1`
for a transparent pixel, otherwise `int(r+g+b) / CharStep` (exact integer
division), negated to `len(ASCIIChars) - i` when `reverse` is false. -/
def glyphIdx (p : RGBA) (reverse : Bool) : Int :=
  if p.a = 0 then (30 : Int) - 1
  else
    let i : Int := ((p.r + p.g + p.b) / CharStep : Nat)
    if !reverse then (30 : Int) - i else i

/-- Lookup `ASCIIChars[i%len(ASCIIChars)]` in `main.go`'s `convertRow`. -/
def pixelChar (p : RGBA) (reverse : Bool) : Char :=
  (ASCIIChars[((glyphIdx p reverse).tmod 30).toNat]?).getD ' '

/-- Row `y` of `main.go`'s `imgToASCII` matrix: its collector writes each
cell at `matrix[pc.y][pc.x]` (no mirroring in this variant). -/
def imgRow (im : GoImage) (y : Nat) (reverse : Bool) : List Char :=
  convert.fillRow im.width false (fun x => pixelChar (im.pixel x y) reverse) (Char.ofNat 0)

/-- Go `strings.TrimRight(s, " ")` on a rune list: remove every trailing space. -/
def trimRightSpaces (l : List Char) : List Char :=
  (l.reverse.dropWhile (· == ' ')).reverse

/-- The `chunks` slice of `main.go`'s `imgToASCII`: each row trimmed of
trailing spaces before joining. -/
def imgToASCIIChunks (im : GoImage) (reverse : Bool) : List String :=
  (List.range im.height).map (fun y => String.mk (trimRightSpaces (imgRow im y reverse)))

/-- Function `imgToASCII` of `main.go`: trimmed rows joined with `"\n"`. -/
def imgToASCII (im : GoImage) (reverse : Bool) : String :=
  String.intercalate "\n" (imgToASCIIChunks im reverse)

end simple

namespace scale

/-- Enum `scale.Mode`: the four interpolation algorithms, low to high quality. -/
inductive Mode where
  | NearestNeighbourScaling
  | ApproxBilinearScaling
  | BilinearScaling
  | CatmullRomScaling
deriving Repr, DecidableEq

/-- Record `scale.ScaleOpts`: `Width`/`Height` are Go `uint`s, `Factor` a
`float64` modelled as `ℚ` (see the file header). -/
structure ScaleOpts where
  Width : Nat
  Height : Nat
  Factor : ℚ
  Mode : Mode
deriving Repr, DecidableEq

/-- Go's `math.Round`: round half away from zero. -/
def goRound (q : ℚ) : Int := if 0 ≤ q then ⌊q + 1/2⌋ else -⌊-q + 1/2⌋

/-- Function `scale.getScaledXY`: `(int(Width), int(Height))` when `Factor` is the
unused sentinel `0`, else `(Round(srcW*Factor), Round(srcH*Factor))`.
`srcW`/`srcH` are the source's `Bounds().Max` (nonnegative for images). -/
def getScaledXY (opts : ScaleOpts) (srcW srcH : Nat) : Int × Int :=
  if opts.Factor = 0 then ((opts.Width : Int), (opts.Height : Int))
  else (goRound ((srcW : ℚ) * opts.Factor), goRound ((srcH : ℚ) * opts.Factor))

/-- The factor-determination block of `scale.FileToWindow` (the file
decoding around it is external I/O): when width, height and factor are all
set, adopt `Height/srcH` and then `Width/srcW` whenever the source exceeds
the bound and the quotient is below the current factor; clamp the factor
to 1.0; if a bound-derived factor was adopted, clear `Width`/`Height`. -/
def fileToWindowOpts (srcW srcH : Nat) (opts : ScaleOpts) : ScaleOpts :=
  if opts.Width ≠ 0 ∧ opts.Height ≠ 0 ∧ opts.Factor ≠ 0 then
    let p1 : ℚ × Bool :=
      if srcH > opts.Height ∧ (opts.Height : ℚ) / (srcH : ℚ) < opts.Factor
      then ((opts.Height : ℚ) / (srcH : ℚ), true)
      else (opts.Factor, false)
    let p2 : ℚ × Bool :=
      if srcW > opts.Width ∧ (opts.Width : ℚ) / (srcW : ℚ) < p1.1
      then ((opts.Width : ℚ) / (srcW : ℚ), true)
      else p1
    let f : ℚ := if p2.1 > 1 then 1 else p2.1
    if p2.2 then { opts with Width := 0, Height := 0, Factor := f }
    else { opts with Factor := f }
  else opts

end scale

/-! ## Infrastructure lemmas -/

namespace convert

theorem mirrorIdx_lt {w x : Nat} (inv : Bool) (hx : x < w) : mirrorIdx w inv x < w := by
  unfold mirrorIdx; split <;> omega

theorem mirrorIdx_involutive {w x : Nat} (inv : Bool) (hx : x < w) :
    mirrorIdx w inv (mirrorIdx w inv x) = x := by
  unfold mirrorIdx; split <;> omega

theorem mirrorIdx_inj {w x y : Nat} (inv : Bool) (hx : x < w) (hy : y < w)
    (h : mirrorIdx w inv x = mirrorIdx w inv y) : x = y := by
  unfold mirrorIdx at h; split at h <;> omega

theorem foldl_set_length {α : Type} (g : Nat → Nat) (f : Nat → α) :
    ∀ (xs : List Nat) (r0 : List α),
      (xs.foldl (fun row x => row.set (g x) (f x)) r0).length = r0.length := by
  intro xs
  induction xs with
  | nil => intro r0; rfl
  | cons x t ih => intro r0; simp only [List.foldl_cons, ih, List.length_set]

theorem fillRow_length {α : Type} (w : Nat) (inv : Bool) (f : Nat → α) (d : α) :
    (fillRow w inv f d).length = w := by
  unfold fillRow
  rw [foldl_set_length]
  exact List.length_replicate w d

theorem foldl_set_getElem? {α : Type} {w : Nat} (inv : Bool) (f : Nat → α)
    {x₀ : Nat} (hx₀ : x₀ < w) :
    ∀ (xs : List Nat) (r0 : List α), r0.length = w → (∀ x ∈ xs, x < w) →
      (xs.foldl (fun row x => row.set (mirrorIdx w inv x) (f x)) r0)[mirrorIdx w inv x₀]? =
        if x₀ ∈ xs then some (f x₀) else r0[mirrorIdx w inv x₀]? := by
  intro xs
  induction xs with
  | nil => intro r0 _ _; simp
  | cons x t ih =>
    intro r0 hlen hmem
    simp only [List.foldl_cons]
    rw [ih _ (by rw [List.length_set]; exact hlen) (fun z hz => hmem z (List.mem_cons_of_mem _ hz))]
    by_cases hxt : x₀ ∈ t
    · rw [if_pos hxt, if_pos (List.mem_cons_of_mem x hxt)]
    · by_cases hxx : x = x₀
      · subst hxx
        rw [if_neg hxt, List.getElem?_set_self (by rw [hlen]; exact mirrorIdx_lt inv hx₀),
            if_pos (List.mem_cons_self x t)]
      · have hne : mirrorIdx w inv x ≠ mirrorIdx w inv x₀ := fun h =>
          hxx (mirrorIdx_inj inv (hmem x (List.mem_cons_self x t)) hx₀ h)
        have hmemc : x₀ ∉ x :: t := by
          intro hc
          rcases List.mem_cons.mp hc with h | h
          · exact hxx h.symm
          · exact hxt h
        rw [if_neg hxt, List.getElem?_set_ne hne, if_neg hmemc]

theorem fillRow_getElem? {α : Type} {w : Nat} (inv : Bool) (f : Nat → α) (d : α)
    {x : Nat} (hx : x < w) :
    (fillRow w inv f d)[mirrorIdx w inv x]? = some (f x) := by
  unfold fillRow
  rw [foldl_set_getElem? inv f hx (List.range w) _ (List.length_replicate w d)
        (fun z hz => List.mem_range.mp hz)]
  simp [List.mem_range, hx]

theorem rawIdx_mono {s t : Nat} (h : s ≤ t) : rawIdx s ≤ rawIdx t :=
  Nat.div_le_div_right (Nat.mul_le_mul_right _ h)

theorem rawIdx_196605 : rawIdx 196605 = 29 := by decide

theorem rawIdx_196604 : rawIdx 196604 = 28 := by decide

theorem rawIdx_6780 : rawIdx 6780 = 1 := by decide

theorem rawIdx_le_29 {s : Nat} (h : s ≤ 196605) : rawIdx s ≤ 29 := by
  have h1 := rawIdx_mono h
  rw [rawIdx_196605] at h1
  exact h1

theorem tmod29_toNat_lt : ∀ i : Nat, i < 30 →
    ((29 - (i : Int)).tmod 29).toNat < 29 ∧ (((i : Int)).tmod 29).toNat < 29 := by decide

theorem tmod30_toNat_lt : ∀ i : Nat, i < 31 →
    ((30 - (i : Int)).tmod 30).toNat < 30 ∧ (((i : Int)).tmod 30).toNat < 30 := by decide

theorem negIdx_mono : ∀ i₁ : Nat, i₁ < 30 → ∀ i₂ : Nat, i₂ < 30 → i₂ ≤ i₁ → 1 ≤ i₂ →
    ((29 - (i₁ : Int)).tmod 29).toNat ≤ ((29 - (i₂ : Int)).tmod 29).toNat := by decide

theorem plainIdx_mono : ∀ i₁ : Nat, i₁ < 30 → ∀ i₂ : Nat, i₂ < 30 → i₂ ≤ i₁ → i₁ ≤ 28 →
    (((i₂ : Int)).tmod 29).toNat ≤ (((i₁ : Int)).tmod 29).toNat := by decide

theorem assignedIdx_opaque {p : RGBA} (hp : p.a ≠ 0) :
    assignedIdx p false = ((29 - (rawIdx (p.r + p.g + p.b) : Int)).tmod 29).toNat ∧
    assignedIdx p true = (((rawIdx (p.r + p.g + p.b) : Int)).tmod 29).toNat := by
  unfold assignedIdx glyphIdx
  simp [hp]

end convert

theorem intercalate_go_cons (s acc b : String) (l : List String) :
    String.intercalate.go acc s (b :: l) = acc ++ s ++ String.intercalate.go b s l := by
  induction l generalizing acc b with
  | nil => rfl
  | cons c t ih =>
    show String.intercalate.go (acc ++ s ++ b) s (c :: t) = _
    rw [ih, ih]
    simp [String.append_assoc]

theorem intercalate_cons_cons (s a b : String) (l : List String) :
    String.intercalate s (a :: b :: l) = a ++ s ++ String.intercalate s (b :: l) :=
  intercalate_go_cons s a b l

/-- Rows of a text block, all but the last with `R` appended: the shape a
reset-terminated join gives each line. -/
def appendInit (R : String) : List String → List String
  | [] => []
  | [a] => [a]
  | a :: b :: t => (a ++ R) :: appendInit R (b :: t)

theorem appendInit_cons₂ (R a b : String) (t : List String) :
    appendInit R (a :: b :: t) = (a ++ R) :: appendInit R (b :: t) := by
  rfl

theorem intercalate_append_sep (R : String) (l : List String) :
    String.intercalate (R ++ "\n") l = String.intercalate "\n" (appendInit R l) := by
  induction l with
  | nil => rfl
  | cons a t ih =>
    cases t with
    | nil => rfl
    | cons b t' =>
      obtain ⟨c, l', hc⟩ : ∃ c l', appendInit R (b :: t') = c :: l' := by
        cases t' <;> exact ⟨_, _, rfl⟩
      rw [appendInit_cons₂, intercalate_cons_cons, ih, hc, intercalate_cons_cons]
      simp [String.append_assoc]

theorem head?_dropWhile_false {α : Type} (p : α → Bool) (l : List α) :
    ∀ {a : α}, (l.dropWhile p).head? = some a → p a = false := by
  induction l with
  | nil => intro a h; simp [List.dropWhile] at h
  | cons x t ih =>
    intro a h
    rw [List.dropWhile_cons] at h
    by_cases hx : p x
    · exact ih (by simpa [hx] using h)
    · rw [if_neg hx] at h
      simp only [List.head?_cons, Option.some.injEq] at h
      subst h
      simpa using hx

namespace simple

theorem trimRight_no_trailing (l : List Char) : ¬ ([' '] <:+ trimRightSpaces l) := by
  intro hsuf
  obtain ⟨init, hinit⟩ := hsuf
  have h1 : (trimRightSpaces l).getLast? = some ' ' := by
    rw [← hinit]; exact List.getLast?_concat _
  unfold trimRightSpaces at h1
  rw [List.getLast?_eq_head?_reverse, List.reverse_reverse] at h1
  have h2 := head?_dropWhile_false (· == ' ') l.reverse h1
  simp at h2

end simple

/-! ## Claim theorems -/

/-- Claim C1 (code_bug): evaluating the embedded `convert.ImgToASCII` at the
failing input — a 1×1 solid-white image (65535,65535,65535,65535) with
`reverseTone=false` — yields the densest glyph `"Ñ"`, not the single space
the claim (and `ImgToASCII`'s own doc comment, "white being shown as a
space") requires: the channel sum 196605 divided by `CharStep` truncates
to 29, `cLen - 29 = 0`, and `ASCIIChars[0]` is `'Ñ'`.  The claim's
solid-black half does hold: black also maps to `"Ñ"`. -/
theorem c1_white_black_eval :
    convert.imgToASCII ⟨1, 1, fun _ _ => ⟨65535, 65535, 65535, 65535⟩⟩ false false = "Ñ" ∧
    convert.imgToASCII ⟨1, 1, fun _ _ => ⟨0, 0, 0, 65535⟩⟩ false false = "Ñ" := by
  constructor <;> rfl

/-- Claim C2 (counterexample): the tone-monotonicity relation fails at the
wraparound of the final modulo.  With `reverseTone=false`, the opaque pixel
(6780,0,0) (channel sum 6780, pre-modulo index 28) is brighter than opaque
black (sum 0, pre-modulo index 29 which wraps to 0), yet its ramp index 28
is NOT ≤ black's 0.  With `reverseTone=true`, solid white (sum 196605,
pre-modulo index 29 which wraps to 0) is brighter than (65535,65535,65534)
(index 28), yet 0 is NOT ≥ 28. -/
theorem c2_counterexample :
    (6780 + 0 + 0 > 0 + 0 + 0 ∧
      ¬ convert.assignedIdx ⟨6780, 0, 0, 65535⟩ false ≤
          convert.assignedIdx ⟨0, 0, 0, 65535⟩ false) ∧
    (65535 + 65535 + 65535 > 65535 + 65535 + 65534 ∧
      ¬ convert.assignedIdx ⟨65535, 65535, 65534, 65535⟩ true ≤
          convert.assignedIdx ⟨65535, 65535, 65535, 65535⟩ true) := by
  decide

/-- Claim C2 (amended): for opaque pixels with in-range channels and
P1's channel sum strictly above P2's, the glyph-ramp index of P1 under
`reverseTone=false` is ≤ that of P2 provided the darker pixel's sum is at
least 6780 (below that threshold P2's pre-modulo index is 29, which the
`% 29` wraps to 0, the bottom of the ramp); under `reverseTone=true` the
index of P1 is ≥ that of P2 provided the brighter pixel's sum is below the
maximum 196605 (exactly there the pre-modulo index 29 wraps to 0). -/
theorem c2_tone_monotonicity (p1 p2 : RGBA)
    (h1r : p1.r ≤ 65535) (h1g : p1.g ≤ 65535) (h1b : p1.b ≤ 65535)
    (h2r : p2.r ≤ 65535) (h2g : p2.g ≤ 65535) (h2b : p2.b ≤ 65535)
    (ha1 : p1.a ≠ 0) (ha2 : p2.a ≠ 0)
    (hsum : p1.r + p1.g + p1.b > p2.r + p2.g + p2.b) :
    (6780 ≤ p2.r + p2.g + p2.b →
      convert.assignedIdx p1 false ≤ convert.assignedIdx p2 false) ∧
    (p1.r + p1.g + p1.b ≤ 196604 →
      convert.assignedIdx p2 true ≤ convert.assignedIdx p1 true) := by
  have hi1le : convert.rawIdx (p1.r + p1.g + p1.b) ≤ 29 := convert.rawIdx_le_29 (by omega)
  have hi2le : convert.rawIdx (p2.r + p2.g + p2.b) ≤ 29 := convert.rawIdx_le_29 (by omega)
  have hmono : convert.rawIdx (p2.r + p2.g + p2.b) ≤ convert.rawIdx (p1.r + p1.g + p1.b) :=
    convert.rawIdx_mono (by omega)
  constructor
  · intro hdark
    have h1 : 1 ≤ convert.rawIdx (p2.r + p2.g + p2.b) := by
      have := convert.rawIdx_mono hdark
      rw [convert.rawIdx_6780] at this
      exact this
    rw [(convert.assignedIdx_opaque ha1).1, (convert.assignedIdx_opaque ha2).1]
    exact convert.negIdx_mono _ (by omega) _ (by omega) hmono h1
  · intro hbright
    have h28 : convert.rawIdx (p1.r + p1.g + p1.b) ≤ 28 := by
      have := convert.rawIdx_mono hbright
      rw [convert.rawIdx_196604] at this
      exact this
    rw [(convert.assignedIdx_opaque ha1).2, (convert.assignedIdx_opaque ha2).2]
    exact convert.plainIdx_mono _ (by omega) _ (by omega) hmono h28

/-- Claim C2 (witness): the amended monotonicity at the concrete opaque
pixels (65535,65535,0) and (6780,0,0): both guards hold there. -/
theorem c2_tone_monotonicity_witness :
    convert.assignedIdx ⟨65535, 65535, 0, 1⟩ false ≤ convert.assignedIdx ⟨6780, 0, 0, 1⟩ false ∧
    convert.assignedIdx ⟨6780, 0, 0, 1⟩ true ≤ convert.assignedIdx ⟨65535, 65535, 0, 1⟩ true := by
  have h := c2_tone_monotonicity ⟨65535, 65535, 0, 1⟩ ⟨6780, 0, 0, 1⟩
    (by decide) (by decide) (by decide) (by decide) (by decide) (by decide)
    (by decide) (by decide) (by decide)
  exact ⟨h.1 (by decide), h.2 (by decide)⟩

/-- Claim C3 (confirmed): a pixel with alpha = 0 gets pre-modulo index
`cLen - 1 = 28`, the ramp's terminal glyph at index 28 is the space
character, and — for every combination of the `reverseTone` and mirror
flags — the output cell the pixel lands in holds that space glyph in both
the plain (`convertRow`) and colourised (`convertRowColour`) paths. -/
theorem c3_transparent_blank (im : GoImage) (x y : Nat) (rev inv : Bool)
    (hx : x < im.width) (ha : (im.pixel x y).a = 0) :
    convert.glyphIdx (im.pixel x y) rev = 28 ∧
    convert.ASCIIChars[28]? = some ' ' ∧
    (convert.imgRowChars im y rev inv)[convert.mirrorIdx im.width inv x]? = some ' ' ∧
    (convert.imgRowColoured im y rev inv)[convert.mirrorIdx im.width inv x]? = some " " := by
  have hglyph : convert.glyphIdx (im.pixel x y) rev = 28 := by
    unfold convert.glyphIdx
    rw [if_pos ha]
    rfl
  have hchar : convert.pixelChar (im.pixel x y) rev = ' ' := by
    unfold convert.pixelChar convert.assignedIdx
    rw [hglyph]
    rfl
  have hcell : convert.colouredCell (im.pixel x y) rev = " " := by
    unfold convert.colouredCell colour.FromColor
    rw [if_pos ha, hchar]
    rfl
  refine ⟨hglyph, rfl, ?_, ?_⟩
  · rw [convert.imgRowChars, convert.fillRow_getElem? inv _ _ hx, hchar]
  · rw [convert.imgRowColoured, convert.fillRow_getElem? inv _ _ hx, hcell]

/-- Claim C3 (witness): the transparent pixel of a concrete 1×1 image
renders as a blank cell with both flags set. -/
theorem c3_transparent_blank_witness :
    (convert.imgRowChars ⟨1, 1, fun _ _ => ⟨5, 6, 7, 0⟩⟩ 0 true true)[convert.mirrorIdx 1 true 0]? =
      some ' ' :=
  (c3_transparent_blank ⟨1, 1, fun _ _ => ⟨5, 6, 7, 0⟩⟩ 0 0 true true (by decide) rfl).2.2.1

/-- Claim C7 (confirmed): with the mirror flag enabled, the glyph computed
for source column `x` in a row of width `W` is placed at output column
`W - x - 1`, identically in the plain (`ImgToASCII`) and colourised
(`ImgToASCIIColoured`) collector loops, and the mirror placement is an
involution: applying it twice restores the original column. -/
theorem c7_mirror_placement (im : GoImage) (neg : Bool) (x y : Nat) (hx : x < im.width) :
    (convert.imgRowChars im y neg true)[im.width - x - 1]? =
      some (convert.pixelChar (im.pixel x y) neg) ∧
    (convert.imgRowColoured im y neg true)[im.width - x - 1]? =
      some (convert.colouredCell (im.pixel x y) neg) ∧
    convert.mirrorIdx im.width true (convert.mirrorIdx im.width true x) = x := by
  refine ⟨?_, ?_, convert.mirrorIdx_involutive true hx⟩
  · have h := convert.fillRow_getElem? (w := im.width) true
      (fun x => convert.pixelChar (im.pixel x y) neg) (Char.ofNat 0) hx
    simpa [convert.mirrorIdx] using h
  · have h := convert.fillRow_getElem? (w := im.width) true
      (fun x => convert.colouredCell (im.pixel x y) neg) "" hx
    simpa [convert.mirrorIdx] using h

/-- Claim C7 (witness): mirrored placement on a concrete 2×1 image: the
glyph of source column 0 lands at output column 1. -/
theorem c7_mirror_placement_witness :
    (convert.imgRowChars ⟨2, 1, fun _ _ => ⟨0, 0, 0, 65535⟩⟩ 0 false true)[2 - 0 - 1]? =
      some (convert.pixelChar ⟨0, 0, 0, 65535⟩ false) :=
  (c7_mirror_placement ⟨2, 1, fun _ _ => ⟨0, 0, 0, 65535⟩⟩ false 0 0 (by decide)).1

/-- Claim C4 (counterexample): the hex round-trip fails for every triple,
e.g. (255,255,255): `Hex` emits `"0xffffff"`, and `FromHex` — Go's
`ParseUint` with the base given explicitly as 16 — rejects the character
`'x'` as a syntax error instead of returning the original colour. -/
theorem c4_counterexample :
    colour.Hex ⟨255, 255, 255⟩ = "0xffffff" ∧
    colour.FromHex (colour.Hex ⟨255, 255, 255⟩) = none := by
  decide

theorem hexDigitChar_spec : ∀ d : Nat, d < 16 →
    colour.isHexDigitChar (colour.hexDigitChar d) = true ∧
    colour.hexVal (colour.hexDigitChar d) = d := by decide

set_option maxHeartbeats 1000000 in
/-- Claim C4 (amended): `Hex()` output is the `"0x"` marker followed by six
hex digits, and `FromHex` applied to those six digits (the `Hex()` output
with the `"0x"` stripped) reproduces the original `Colour256` exactly, for
all 0–255 channel triples; on the full `Hex()` output, `FromHex` fails
because `ParseUint` with explicit base 16 accepts no `"0x"` marker. -/
theorem c4_hex_roundtrip (c : colour.Colour256) :
    colour.Hex c = "0x" ++ colour.hexDigits c ∧
    colour.FromHex (colour.hexDigits c) = some c := by
  obtain ⟨⟨rv, hr⟩, ⟨gv, hg⟩, ⟨bv, hb⟩⟩ := c
  refine ⟨rfl, ?_⟩
  have h1 := hexDigitChar_spec (rv / 16) (by omega)
  have h2 := hexDigitChar_spec (rv % 16) (by omega)
  have h3 := hexDigitChar_spec (gv / 16) (by omega)
  have h4 := hexDigitChar_spec (gv % 16) (by omega)
  have h5 := hexDigitChar_spec (bv / 16) (by omega)
  have h6 := hexDigitChar_spec (bv % 16) (by omega)
  have hdata : (colour.hexDigits ⟨⟨rv, hr⟩, ⟨gv, hg⟩, ⟨bv, hb⟩⟩).data =
      [colour.hexDigitChar (rv / 16), colour.hexDigitChar (rv % 16),
       colour.hexDigitChar (gv / 16), colour.hexDigitChar (gv % 16),
       colour.hexDigitChar (bv / 16), colour.hexDigitChar (bv % 16)] := by
    simp [colour.hexDigits, colour.byteHex, String.data_append]
  unfold colour.FromHex colour.parseUintHex32
  rw [hdata]
  rw [if_neg (by simp)]
  rw [if_pos (by simp [List.all_cons, h1.1, h2.1, h3.1, h4.1, h5.1, h6.1])]
  simp only [List.foldl_cons, List.foldl_nil, h1.2, h2.2, h3.2, h4.2, h5.2, h6.2]
  rw [if_pos (by omega)]
  simp only [Option.some.injEq, colour.Colour256.mk.injEq, Fin.mk.injEq]
  omega
/-- Claim C5 (confirmed): for a 2816×1880 source with fit-to-window bounds
width = 400, height = 110 and factor 1.0, `FileToWindow`'s factor block
adopts `110/1880` — which is `min(400/2816, 110/1880)` — keeps it under the
1.0 clamp, clears the explicit width/height, and `getScaledXY` then yields
the scaled dimensions (165, 110). -/
theorem c5_fit_to_window :
    (scale.fileToWindowOpts 2816 1880 ⟨400, 110, 1, .NearestNeighbourScaling⟩).Factor =
      110 / 1880 ∧
    (scale.fileToWindowOpts 2816 1880 ⟨400, 110, 1, .NearestNeighbourScaling⟩).Factor =
      min ((400 : ℚ) / 2816) ((110 : ℚ) / 1880) ∧
    (scale.fileToWindowOpts 2816 1880 ⟨400, 110, 1, .NearestNeighbourScaling⟩).Factor ≤ 1 ∧
    (scale.fileToWindowOpts 2816 1880 ⟨400, 110, 1, .NearestNeighbourScaling⟩).Width = 0 ∧
    (scale.fileToWindowOpts 2816 1880 ⟨400, 110, 1, .NearestNeighbourScaling⟩).Height = 0 ∧
    scale.getScaledXY (scale.fileToWindowOpts 2816 1880 ⟨400, 110, 1, .NearestNeighbourScaling⟩)
      2816 1880 = (165, 110) := by
  refine ⟨by norm_num [scale.fileToWindowOpts], ?_, ?_, ?_, ?_, ?_⟩ <;>
    norm_num [scale.fileToWindowOpts, scale.getScaledXY, scale.goRound]

theorem goRound_natCast (n : Nat) : scale.goRound (n : ℚ) = n := by
  unfold scale.goRound
  rw [if_pos (by positivity)]
  rw [show ((n : ℚ) + 1 / 2) = ((n : Int) : ℚ) + 1 / 2 by push_cast; ring]
  rw [Int.floor_int_add]
  norm_num

/-- Claim C6 (confirmed): `getScaledXY` returns exactly the explicit
`(Width, Height)` whenever `Factor` is the unused sentinel 0 (for every
width and height, in particular all positive ones), returns
`(Round(srcW·Factor), Round(srcH·Factor))` whenever `Factor` is non-zero,
and in particular `Factor = 1` with no explicit size in effect reproduces
the source dimensions exactly. -/
theorem c6_target_size (opts : scale.ScaleOpts) (srcW srcH : Nat) :
    (opts.Factor = 0 →
      scale.getScaledXY opts srcW srcH = ((opts.Width : Int), (opts.Height : Int))) ∧
    (opts.Factor ≠ 0 →
      scale.getScaledXY opts srcW srcH =
        (scale.goRound ((srcW : ℚ) * opts.Factor), scale.goRound ((srcH : ℚ) * opts.Factor))) ∧
    (opts.Factor = 1 →
      scale.getScaledXY opts srcW srcH = ((srcW : Int), (srcH : Int))) := by
  refine ⟨fun h0 => ?_, fun hne => ?_, fun h1 => ?_⟩
  · unfold scale.getScaledXY
    rw [if_pos h0]
  · unfold scale.getScaledXY
    rw [if_neg hne]
  · unfold scale.getScaledXY
    rw [if_neg (by rw [h1]; norm_num), h1, mul_one, mul_one,
        goRound_natCast, goRound_natCast]

/-- Claim C6 (witness): the three branches at concrete inputs — sentinel
factor 0 with explicit 3×4, factor 1/2 on a 10×21 source, and factor 1
reproducing a 10×20 source. -/
theorem c6_target_size_witness :
    scale.getScaledXY ⟨3, 4, 0, .NearestNeighbourScaling⟩ 10 20 = (3, 4) ∧
    scale.getScaledXY ⟨0, 0, 1 / 2, .NearestNeighbourScaling⟩ 10 21 =
      (scale.goRound ((10 : ℚ) * (1 / 2)), scale.goRound ((21 : ℚ) * (1 / 2))) ∧
    scale.getScaledXY ⟨0, 0, 1, .NearestNeighbourScaling⟩ 10 20 = (10, 20) :=
  ⟨(c6_target_size ⟨3, 4, 0, .NearestNeighbourScaling⟩ 10 20).1 rfl,
   (c6_target_size ⟨0, 0, 1 / 2, .NearestNeighbourScaling⟩ 10 21).2.1 (by norm_num),
   (c6_target_size ⟨0, 0, 1, .NearestNeighbourScaling⟩ 10 20).2.2 rfl⟩
/-- Claim C8 (counterexample): on a 1-wide, 2-row solid-black image,
`ImgToASCIIColoured` produces a first line (the text before the `"\n"`
separator) ending in the glyph `'Ñ'`, not in a colour-reset sequence: its
rows carry no per-line reset, only a single reset closes the whole block. -/
theorem c8_counterexample :
    convert.imgToASCIIColoured ⟨1, 2, fun _ _ => ⟨0, 0, 0, 65535⟩⟩ false false =
      "\x1b[48;2;0;0;0mÑ\n\x1b[48;2;0;0;0mÑ\x1b[0m" ∧
    ¬ (colour.ResetColour.data <:+
        ((convert.colouredChunks ⟨1, 2, fun _ _ => ⟨0, 0, 0, 65535⟩⟩ false false).getD 0 "").data) := by
  constructor
  · rfl
  · decide

/-- Claim C8 (amended): `ImgToPreview` ends every line except the last with
a colour-reset before the line separator — its output is exactly the row
chunks, each non-final one suffixed with `ResetColour`, joined by `"\n"` —
while `ImgToASCIIColoured` emits no per-line resets and instead a single
reset at the very end of the whole block. -/
theorem c8_reset_placement (im : GoImage) (single neg inv : Bool) :
    convert.imgToPreview im single =
      String.intercalate "\n" (appendInit colour.ResetColour (convert.previewChunks im single)) ∧
    colour.ResetColour.data <:+ (convert.imgToASCIIColoured im neg inv).data := by
  constructor
  · exact intercalate_append_sep colour.ResetColour (convert.previewChunks im single)
  · rw [convert.imgToASCIIColoured, String.data_append]
    exact List.suffix_append _ _
/-- Claim C9 (confirmed): the core plain-ASCII converter keeps every row
verbatim — row `y` of `convert.ImgToASCII`'s chunks has exactly `W`
characters, trailing spaces included — while the single-file simple
variant's `imgToASCII` trims: none of its chunks ends in a space. -/
theorem c9_trailing_spaces (im : GoImage) (neg inv rev : Bool) (y : Nat) (hy : y < im.height) :
    (((convert.imgToASCIIChunks im neg inv)[y]?).getD "").length = im.width ∧
    ¬ (" ".data <:+ (((simple.imgToASCIIChunks im rev)[y]?).getD "").data) := by
  constructor
  · rw [convert.imgToASCIIChunks, List.getElem?_map, List.getElem?_range hy]
    show (String.mk (convert.imgRowChars im y neg inv)).length = im.width
    show (convert.imgRowChars im y neg inv).length = im.width
    rw [convert.imgRowChars, convert.fillRow_length]
  · rw [simple.imgToASCIIChunks, List.getElem?_map, List.getElem?_range hy]
    show ¬ (" ".data <:+ (String.mk (simple.trimRightSpaces (simple.imgRow im y rev))).data)
    exact simple.trimRight_no_trailing _

/-- Claim C9 (witness): on a concrete 2×1 image whose second pixel is
transparent, the core row keeps both cells (length 2, trailing space
included) and the simple variant's chunk does not end in a space. -/
theorem c9_trailing_spaces_witness :
    (((convert.imgToASCIIChunks
        ⟨2, 1, fun x _ => if x = 0 then ⟨0, 0, 0, 65535⟩ else ⟨0, 0, 0, 0⟩⟩
        false false)[0]?).getD "").length = 2 ∧
    ¬ (" ".data <:+
        (((simple.imgToASCIIChunks
            ⟨2, 1, fun x _ => if x = 0 then ⟨0, 0, 0, 65535⟩ else ⟨0, 0, 0, 0⟩⟩
            false)[0]?).getD "").data) :=
  c9_trailing_spaces
    ⟨2, 1, fun x _ => if x = 0 then ⟨0, 0, 0, 65535⟩ else ⟨0, 0, 0, 0⟩⟩
    false false false 0 (by decide)

/-- Claim C10 (counterexample): the claim's bound of 29 fails for the
`convertRow` of `main.go`: its `ASCIIChars` literal holds 30 runes, and an
opaque black pixel with `reverse=false` yields the pre-modulo index
`len(ASCIIChars) - 0 = 30`, which is not ≤ 29. -/
theorem c10_counterexample :
    simple.ASCIIChars.length = 30 ∧
    simple.glyphIdx ⟨0, 0, 0, 65535⟩ false = 30 ∧
    ¬ (simple.glyphIdx ⟨0, 0, 0, 65535⟩ false ≤ 29) := by
  decide
/-- Claim C10 (amended): for every pixel with channels in 0–65535 and any
alpha, under both tone settings, the pre-modulo glyph index is nonnegative
and at most the respective ramp length — 29 for the `convert` package's
`convertRow`/`convertRowColour`, 30 for `main.go`'s `convertRow` (whose
`ASCIIChars` literal holds 30 runes) — so the lookup at index
`i % len(ASCIIChars)` is always in bounds and the glyph mapper is total. -/
theorem c10_index_safety (p : RGBA)
    (hr : p.r ≤ 65535) (hg : p.g ≤ 65535) (hb : p.b ≤ 65535) (rev : Bool) :
    (0 ≤ convert.glyphIdx p rev ∧ convert.glyphIdx p rev ≤ 29 ∧
      convert.assignedIdx p rev < convert.ASCIIChars.length) ∧
    (0 ≤ simple.glyphIdx p rev ∧ simple.glyphIdx p rev ≤ 30 ∧
      ((simple.glyphIdx p rev).tmod 30).toNat < simple.ASCIIChars.length) := by
  have hlen : convert.ASCIIChars.length = 29 := by decide
  have hlen' : simple.ASCIIChars.length = 30 := by decide
  rw [hlen, hlen', convert.assignedIdx]
  by_cases ha : p.a = 0
  · have h1 : convert.glyphIdx p rev = 28 := by
      unfold convert.glyphIdx; rw [if_pos ha]; rfl
    have h2 : simple.glyphIdx p rev = 29 := by
      unfold simple.glyphIdx; rw [if_pos ha]; rfl
    rw [h1, h2]
    refine ⟨⟨by decide, by decide, by decide⟩, by decide, by decide, by decide⟩
  · have hi : convert.rawIdx (p.r + p.g + p.b) ≤ 29 := convert.rawIdx_le_29 (by omega)
    have hj : (p.r + p.g + p.b) / 8738 ≤ 22 := by
      have h : (p.r + p.g + p.b) / 8738 ≤ 196605 / 8738 :=
        Nat.div_le_div_right (by omega)
      omega
    cases rev
    · have h1 : convert.glyphIdx p false = 29 - (convert.rawIdx (p.r + p.g + p.b) : Int) := by
        unfold convert.glyphIdx; rw [if_neg ha]; rfl
      have h2 : simple.glyphIdx p false =
          30 - (((p.r + p.g + p.b) / 8738 : Nat) : Int) := by
        unfold simple.glyphIdx; rw [if_neg ha]; rfl
      rw [h1, h2]
      exact ⟨⟨by omega, by omega, (convert.tmod29_toNat_lt _ (by omega)).1⟩,
        by omega, by omega, (convert.tmod30_toNat_lt _ (by omega)).1⟩
    · have h1 : convert.glyphIdx p true = (convert.rawIdx (p.r + p.g + p.b) : Int) := by
        unfold convert.glyphIdx; rw [if_neg ha]; rfl
      have h2 : simple.glyphIdx p true =
          (((p.r + p.g + p.b) / 8738 : Nat) : Int) := by
        unfold simple.glyphIdx; rw [if_neg ha]; rfl
      rw [h1, h2]
      exact ⟨⟨by omega, by omega, (convert.tmod29_toNat_lt _ (by omega)).2⟩,
        by omega, by omega, (convert.tmod30_toNat_lt _ (by omega)).2⟩

/-- Claim C10 (witness): index safety at the concrete opaque mid-grey pixel
(30000,30000,30000) with `reverse=false`. -/
theorem c10_index_safety_witness :
    (0 ≤ convert.glyphIdx ⟨30000, 30000, 30000, 65535⟩ false ∧
      convert.glyphIdx ⟨30000, 30000, 30000, 65535⟩ false ≤ 29 ∧
      convert.assignedIdx ⟨30000, 30000, 30000, 65535⟩ false < convert.ASCIIChars.length) ∧
    (0 ≤ simple.glyphIdx ⟨30000, 30000, 30000, 65535⟩ false ∧
      simple.glyphIdx ⟨30000, 30000, 30000, 65535⟩ false ≤ 30 ∧
      ((simple.glyphIdx ⟨30000, 30000, 30000, 65535⟩ false).tmod 30).toNat <
        simple.ASCIIChars.length) :=
  c10_index_safety ⟨30000, 30000, 30000, 65535⟩ (by decide) (by decide) (by decide) false
